import Mathlib

/-!
Verification of `tools/check_parens.py`, a bracket-balance scanner.

The script reads one text file, splits it into lines with Python's
`str.splitlines`, scans every character keeping three signed counters
(`paren`, `brace`, `brack`), prints one diagnostic record per line and a
final summary, and exits with code 0 when all three final counters are
zero and code 2 otherwise.

The embedding below models the file text as a `List Char`, the counters as
a structure of three `Int`s, the printed output as a list of lines (each a
`List Char`), and the surrounding I/O as an `Except` value: a failed read
propagates the error before any scanning happens.
-/

namespace CheckParens

/-- The set of line-boundary characters recognized by Python `str.splitlines`:
LF, CR, VT, FF, FS, GS, RS, NEL, LINE SEPARATOR, PARAGRAPH SEPARATOR.
(A CR immediately followed by LF counts as a single boundary; that pairing is
handled in `splitlinesGo`.) -/
def isLineBreak (c : Char) : Bool :=
  c = '\n' || c = '\r' || c = '\x0b' || c = '\x0c' ||
  c = '\x1c' || c = '\x1d' || c = '\x1e' || c = '\x85' ||
  c = '\u2028' || c = '\u2029'

/-- Worker for `splitlines`: `acc` holds the current (reversed) partial line.
Mirrors Python `str.splitlines()` on a non-empty input: a line boundary ends
the current line, `"\r\n"` is one boundary, and a boundary that ends the
input does not produce a trailing empty line. -/
def splitlinesGo (acc : List Char) : List Char → List (List Char)
  | [] => [acc.reverse]
  | c :: rest =>
    if isLineBreak c then
      match rest with
      | [] => [acc.reverse]
      | r0 :: rest2 =>
        if c = '\r' ∧ r0 = '\n' then
          match rest2 with
          | [] => [acc.reverse]
          | r1 :: rest3 => acc.reverse :: splitlinesGo [] (r1 :: rest3)
        else acc.reverse :: splitlinesGo [] (r0 :: rest2)
    else splitlinesGo (c :: acc) rest

/-- Embedding of `s.splitlines()` (line 8 of the script): Python line
splitting, producing no lines at all on empty input and fabricating no empty
trailing entry for a terminating line break. -/
def splitlines (t : List Char) : List (List Char) :=
  if t = [] then [] else splitlinesGo [] t

/-- The three running counters of the script (lines 5-7): signed integers,
initialized to zero, never reset between lines. -/
structure Counters where
  paren : Int
  brace : Int
  brack : Int
  deriving DecidableEq, Repr

/-- Initial counter state: `paren=0`, `brace=0`, `brack=0`. -/
def initC : Counters := ⟨0, 0, 0⟩

/-- One step of the character dispatch (lines 10-22 of the script): the six
recognized bracket characters adjust their counter by ±1, every other
character leaves all three counters unchanged. -/
def step (s : Counters) (c : Char) : Counters :=
  if c = '(' then ⟨s.paren + 1, s.brace, s.brack⟩
  else if c = ')' then ⟨s.paren - 1, s.brace, s.brack⟩
  else if c = '\x7b' then ⟨s.paren, s.brace + 1, s.brack⟩
  else if c = '\x7d' then ⟨s.paren, s.brace - 1, s.brack⟩
  else if c = '[' then ⟨s.paren, s.brace, s.brack + 1⟩
  else if c = ']' then ⟨s.paren, s.brace, s.brack - 1⟩
  else s

/-- The inner `for c in l` loop: scan one line's characters left to right. -/
def scanLine (s : Counters) (l : List Char) : Counters :=
  l.foldl step s

/-- The outer `for i, l in enumerate(lines)` loop, counters only: scan a list
of lines in order, threading the counter state through. -/
def scanLines (s : Counters) (ls : List (List Char)) : Counters :=
  ls.foldl scanLine s

/-- Final counter state after scanning the whole file. -/
def finalCounters (t : List Char) : Counters :=
  scanLines initC (splitlines t)

/-- Net parenthesis count of a character list: occurrences of the open
character minus occurrences of the close character. -/
def netParen (l : List Char) : Int :=
  (l.count '(' : Int) - (l.count ')' : Int)

/-- Net brace count of a character list. -/
def netBrace (l : List Char) : Int :=
  (l.count '\x7b' : Int) - (l.count '\x7d' : Int)

/-- Net square-bracket count of a character list. -/
def netBrack (l : List Char) : Int :=
  (l.count '[' : Int) - (l.count ']' : Int)

/-- Decimal rendering of a natural number, as Python `str`/`format` print it. -/
def renderNat (n : Nat) : List Char :=
  Nat.toDigits 10 n

/-- Decimal rendering of an integer, as Python `str`/`format` print it:
a leading minus sign for negative values. -/
def renderInt (v : Int) : List Char :=
  if v < 0 then '-' :: renderNat v.natAbs else renderNat v.natAbs

/-- Embedding of Python's right-aligned minimum-width integer field `:wd`:
pad on the left with spaces up to width `w`; a rendering longer than `w` is
kept in full (the field widens, nothing is truncated). -/
def padLeft (w : Nat) (s : List Char) : List Char :=
  List.replicate (w - s.length) ' ' ++ s

/-- The per-line record of line 23 of the script, the f-string
`"{i:4d}: paren={paren:3d} brace={brace:3d} brack={brack:3d} | {l}"`:
1-based index in a width-4 field, each counter in a width-3 field behind its
label, the literal separator, then the raw line text. -/
def record (i : Nat) (s : Counters) (l : List Char) : List Char :=
  padLeft 4 (renderNat i) ++ (": paren=").toList ++ padLeft 3 (renderInt s.paren) ++
  (" brace=").toList ++ padLeft 3 (renderInt s.brace) ++
  (" brack=").toList ++ padLeft 3 (renderInt s.brack) ++
  (" | ").toList ++ l

/-- The outer loop, records included: one record per line, printed after the
line's characters have been scanned, with the running counter state. -/
def recordsGo (s : Counters) (i : Nat) : List (List Char) → List (List Char)
  | [] => []
  | l :: ls => record i (scanLine s l) l :: recordsGo (scanLine s l) (i + 1) ls

/-- All per-line output records of a run, in order. -/
def outputRecords (t : List Char) : List (List Char) :=
  recordsGo initC 1 (splitlines t)

/-- The counter values shown in each per-line record, in order: the state
after line 1, after line 2, and so on. -/
def snapshotsGo (s : Counters) : List (List Char) → List Counters
  | [] => []
  | l :: ls => scanLine s l :: snapshotsGo (scanLine s l) ls

/-- The sequence of printed counter triples of a run. -/
def printedTriples (t : List Char) : List Counters :=
  snapshotsGo initC (splitlines t)

/-- The final summary record of line 25 of the script,
`print('\nFINAL COUNTS:', 'paren', paren, 'brace', brace, 'brack', brack)`:
`print` joins its arguments with single spaces, so the record is a leading
newline, the label, then label/value pairs separated by spaces. -/
def summaryRecord (t : List Char) : List Char :=
  '\n' :: (("FINAL COUNTS: paren ").toList ++ renderInt (finalCounters t).paren ++
    (" brace ").toList ++ renderInt (finalCounters t).brace ++
    (" brack ").toList ++ renderInt (finalCounters t).brack)

/-- The complete standard output of a successful run, as a list of printed
lines: every per-line record in order, then exactly one summary record. -/
def fullOutput (t : List Char) : List (List Char) :=
  outputRecords t ++ [summaryRecord t]

/-- The exit code chosen on lines 26-29 of the script: 2 when any final
counter is nonzero, 0 otherwise. -/
def exitCode (t : List Char) : Nat :=
  if (finalCounters t).paren ≠ 0 ∨ (finalCounters t).brace ≠ 0 ∨
      (finalCounters t).brack ≠ 0 then 2 else 0

/-- The whole program around the scan (lines 3-4 of the script): reading the
file may fail; nothing catches the failure, so an error propagates unchanged,
before any record is produced and before any exit code is chosen. A
successful read yields the printed output and the exit code. -/
def runProgram (r : Except String (List Char)) :
    Except String (List (List Char) × Nat) :=
  match r with
  | Except.error e => Except.error e
  | Except.ok t => Except.ok (fullOutput t, exitCode t)

/-- The six characters the scanner reacts to. -/
def isBracketChar (c : Char) : Bool :=
  c = '(' || c = ')' || c = '\x7b' || c = '\x7d' || c = '[' || c = ']'

end CheckParens

namespace CheckParens

/-- A line-break character never equals a non-break character. -/
theorem break_ne (c r : Char) (hc : isLineBreak c = false)
    (hr : isLineBreak r = true) : (r = c) = False := by
  simp only [eq_iff_iff, iff_false]
  rintro rfl
  simp [hr] at hc

/-- Flattening the lines produced by `splitlinesGo` preserves the number of
occurrences of every non-break character: the split only consumes
line-break characters. -/
theorem flatten_splitlinesGo_count (c : Char) (hc : isLineBreak c = false) :
    ∀ (acc l : List Char),
      ((splitlinesGo acc l).flatten).count c = acc.count c + l.count c := by
  intro acc l
  induction acc, l using splitlinesGo.induct with
  | case1 acc =>
      simp [splitlinesGo]
  | case2 acc r1 h1 =>
      simp [splitlinesGo, h1, List.count_cons, break_ne c r1 hc h1]
  | case3 acc r1 h1 r2 h2 =>
      obtain ⟨rfl, rfl⟩ := h2
      have hcr : isLineBreak '\x0d' = true := by decide
      have hcn : isLineBreak '\n' = true := by decide
      simp [splitlinesGo, hcr, hcn, List.count_cons,
        break_ne c '\x0d' hc hcr, break_ne c '\n' hc hcn]
  | case4 acc r1 h1 r2 h2 r3 rest3 ih =>
      obtain ⟨rfl, rfl⟩ := h2
      have hcr : isLineBreak '\x0d' = true := by decide
      have hcn : isLineBreak '\n' = true := by decide
      simp [splitlinesGo, hcr, hcn, List.count_cons, List.count_append,
        break_ne c '\x0d' hc hcr, break_ne c '\n' hc hcn, ih]
  | case5 acc r1 h1 r2 rest3 h2 ih =>
      rw [splitlinesGo.eq_def]
      simp [h1, h2, List.count_cons, List.count_append,
        break_ne c r1 hc h1, ih]
  | case6 acc r1 rest3 h1 ih =>
      rw [splitlinesGo.eq_def]
      simp [h1, List.count_cons, ih]
      omega

/-- Re-joining the split lines of a text preserves the count of every
non-break character. -/
theorem splitlines_flatten_count (c : Char) (hc : isLineBreak c = false)
    (t : List Char) : ((splitlines t).flatten).count c = t.count c := by
  by_cases h : t = []
  · simp [splitlines, h]
  · simp [splitlines, h, flatten_splitlinesGo_count c hc]

end CheckParens

namespace CheckParens

theorem netParen_append (a b : List Char) :
    netParen (a ++ b) = netParen a + netParen b := by
  simp [netParen, List.count_append]
  ring

theorem netBrace_append (a b : List Char) :
    netBrace (a ++ b) = netBrace a + netBrace b := by
  simp [netBrace, List.count_append]
  ring

theorem netBrack_append (a b : List Char) :
    netBrack (a ++ b) = netBrack a + netBrack b := by
  simp [netBrack, List.count_append]
  ring

theorem step_paren (s : Counters) (a : Char) :
    (step s a).paren = s.paren + netParen [a] := by
  unfold step netParen
  split_ifs with h1 h2 h3 h4 h5 h6 <;>
    simp_all [List.count_singleton, List.count_cons, List.count_nil]
  omega

theorem step_brace (s : Counters) (a : Char) :
    (step s a).brace = s.brace + netBrace [a] := by
  unfold step netBrace
  split_ifs with h1 h2 h3 h4 h5 h6 <;>
    simp_all [List.count_singleton, List.count_cons, List.count_nil]
  omega

theorem step_brack (s : Counters) (a : Char) :
    (step s a).brack = s.brack + netBrack [a] := by
  unfold step netBrack
  split_ifs with h1 h2 h3 h4 h5 h6 <;>
    simp_all [List.count_singleton, List.count_cons, List.count_nil]
  omega

/-- The inner character loop realizes the balance invariant on one line: each
counter grows by exactly the net open-minus-close count of that line. -/
theorem scanLine_eq (l : List Char) : ∀ (s : Counters),
    scanLine s l = ⟨s.paren + netParen l, s.brace + netBrace l, s.brack + netBrack l⟩ := by
  induction l with
  | nil =>
      intro s
      simp [scanLine, netParen, netBrace, netBrack]
  | cons a l ih =>
      intro s
      have h : scanLine s (a :: l) = scanLine (step s a) l := by
        simp [scanLine]
      rw [h, ih (step s a)]
      have e1 : netParen (a :: l) = netParen [a] + netParen l := by
        rw [← List.singleton_append, netParen_append]
      have e2 : netBrace (a :: l) = netBrace [a] + netBrace l := by
        rw [← List.singleton_append, netBrace_append]
      have e3 : netBrack (a :: l) = netBrack [a] + netBrack l := by
        rw [← List.singleton_append, netBrack_append]
      simp only [Counters.mk.injEq, e1, e2, e3, step_paren, step_brace, step_brack]
      refine ⟨by ring, by ring, by ring⟩

/-- The outer line loop accumulates the net counts of all lines combined. -/
theorem scanLines_eq (ls : List (List Char)) : ∀ (s : Counters),
    scanLines s ls = ⟨s.paren + netParen ls.flatten,
      s.brace + netBrace ls.flatten, s.brack + netBrack ls.flatten⟩ := by
  induction ls with
  | nil =>
      intro s
      simp [scanLines, netParen, netBrace, netBrack]
  | cons l ls ih =>
      intro s
      have h : scanLines s (l :: ls) = scanLines (scanLine s l) ls := by
        simp [scanLines]
      rw [h, ih (scanLine s l), scanLine_eq]
      simp only [List.flatten_cons, Counters.mk.injEq, netParen_append,
        netBrace_append, netBrack_append]
      refine ⟨by ring, by ring, by ring⟩

/-- The final counters equal the net bracket counts of the whole text: the
line split discards only line-break characters, which are not brackets. -/
theorem finalCounters_eq (t : List Char) :
    finalCounters t = ⟨netParen t, netBrace t, netBrack t⟩ := by
  rw [finalCounters, scanLines_eq]
  have h1 : netParen ((splitlines t).flatten) = netParen t := by
    rw [netParen, netParen, splitlines_flatten_count '(' (by decide) t,
      splitlines_flatten_count ')' (by decide) t]
  have h2 : netBrace ((splitlines t).flatten) = netBrace t := by
    rw [netBrace, netBrace, splitlines_flatten_count '\x7b' (by decide) t,
      splitlines_flatten_count '\x7d' (by decide) t]
  have h3 : netBrack ((splitlines t).flatten) = netBrack t := by
    rw [netBrack, netBrack, splitlines_flatten_count '[' (by decide) t,
      splitlines_flatten_count ']' (by decide) t]
  simp [initC, h1, h2, h3]

theorem recordsGo_length (ls : List (List Char)) : ∀ (s : Counters) (i : Nat),
    (recordsGo s i ls).length = ls.length := by
  induction ls with
  | nil => intro s i; simp [recordsGo]
  | cons l ls ih => intro s i; simp [recordsGo, ih]

/-- The j-th per-line record (0-based) is printed with line number `i + j`
and the counter state reached after scanning lines 0 through j. -/
theorem recordsGo_getD (ls : List (List Char)) : ∀ (s : Counters) (i j : Nat),
    j < ls.length →
    (recordsGo s i ls).getD j [] =
      record (i + j) (scanLines s (ls.take (j + 1))) (ls.getD j []) := by
  induction ls with
  | nil => intro s i j h; simp at h
  | cons l ls ih =>
      intro s i j h
      cases j with
      | zero =>
          simp [recordsGo, scanLines, scanLine]
      | succ j =>
          have hj : j < ls.length := by simpa using h
          have hstep : (recordsGo s i (l :: ls)).getD (j + 1) [] =
              (recordsGo (scanLine s l) (i + 1) ls).getD j [] := by
            simp [recordsGo]
          rw [hstep, ih (scanLine s l) (i + 1) j hj]
          have e1 : i + 1 + j = i + (j + 1) := by omega
          have e2 : scanLines (scanLine s l) (ls.take (j + 1)) =
              scanLines s ((l :: ls).take (j + 1 + 1)) := by
            simp [scanLines, List.take_succ_cons]
          have e3 : (ls.getD j ([] : List Char)) = (l :: ls).getD (j + 1) [] := by
            simp
          rw [e1, e2, e3]

end CheckParens

namespace CheckParens

/-- Unfolding `splitlinesGo` at a non-break head character: the character
joins the current partial line. -/
theorem splitlinesGo_cons_of_not_break (acc : List Char) (a : Char)
    (r : List Char) (ha : isLineBreak a = false) :
    splitlinesGo acc (a :: r) = splitlinesGo (a :: acc) r := by
  rw [splitlinesGo.eq_def]
  simp [ha]

/-- Unfolding `splitlinesGo` at a break character that does not start a
CR-LF pair and is not last: the current line ends, the rest is split afresh. -/
theorem splitlinesGo_cons_of_break (acc : List Char) (a b : Char)
    (r : List Char) (ha : isLineBreak a = true)
    (hab : ¬(a = '\x0d' ∧ b = '\n')) :
    splitlinesGo acc (a :: b :: r) = acc.reverse :: splitlinesGo [] (b :: r) := by
  rw [splitlinesGo.eq_def]
  simp [ha, hab]

/-- Unfolding `splitlinesGo` at a CR-LF pair followed by more text: the pair
is one boundary, the rest is split afresh. -/
theorem splitlinesGo_cons_of_crlf (acc : List Char) (a b : Char)
    (r : List Char) (hab : a = '\x0d' ∧ b = '\n') (hr : r ≠ []) :
    splitlinesGo acc (a :: b :: r) = acc.reverse :: splitlinesGo [] r := by
  obtain ⟨rfl, rfl⟩ := hab
  have hcr : isLineBreak '\x0d' = true := by decide
  cases r with
  | nil => exact absurd rfl hr
  | cons x xs =>
      rw [splitlinesGo.eq_def]
      simp [hcr]

/-- Unfolding `splitlinesGo` at a break character in final position: the
current line is the last one. -/
theorem splitlinesGo_break_last (acc : List Char) (a : Char)
    (ha : isLineBreak a = true) :
    splitlinesGo acc [a] = [acc.reverse] := by
  rw [splitlinesGo.eq_def]
  simp [ha]

/-- Appending a final newline to a text that ends in a non-break character
does not change the line split: the terminating line break fabricates no
empty trailing line. Stated on the worker with the text in the form
`l ++ [c]`, `c` not a line break. -/
theorem splitlinesGo_append_newline (c : Char) (hc : isLineBreak c = false) :
    ∀ (n : Nat) (l acc : List Char), l.length ≤ n →
      splitlinesGo acc (l ++ [c, '\n']) = splitlinesGo acc (l ++ [c]) := by
  have hn : isLineBreak '\n' = true := by decide
  have hcn : ¬(c = '\x0d' ∧ c = '\n') := by
    rintro ⟨rfl, h⟩
    exact absurd h (by decide)
  intro n
  induction n with
  | zero =>
      intro l acc h
      have hl : l = [] := by
        cases l with
        | nil => rfl
        | cons a l => simp at h
      subst hl
      simp only [List.nil_append]
      rw [splitlinesGo_cons_of_not_break acc c ['\n'] hc,
        splitlinesGo_cons_of_not_break acc c [] hc,
        splitlinesGo_break_last (c :: acc) '\n' hn, splitlinesGo.eq_1]
  | succ n ih =>
      intro l acc h
      cases l with
      | nil =>
          simp only [List.nil_append]
          rw [splitlinesGo_cons_of_not_break acc c ['\n'] hc,
            splitlinesGo_cons_of_not_break acc c [] hc,
            splitlinesGo_break_last (c :: acc) '\n' hn, splitlinesGo.eq_1]
      | cons a l =>
          simp only [List.cons_append]
          by_cases ha : isLineBreak a
          · cases l with
            | nil =>
                have hac : ¬(a = '\x0d' ∧ c = '\n') := by
                  rintro ⟨rfl, rfl⟩
                  simp [hn] at hc
                simp only [List.nil_append]
                rw [splitlinesGo_cons_of_break acc a c ['\n'] ha hac,
                  splitlinesGo_cons_of_break acc a c [] ha hac]
                have := ih [] [] (by simp)
                simpa using this
            | cons b l =>
                simp only [List.cons_append]
                by_cases hab : a = '\x0d' ∧ b = '\n'
                · rw [splitlinesGo_cons_of_crlf acc a b (l ++ [c, '\n']) hab
                      (by simp),
                    splitlinesGo_cons_of_crlf acc a b (l ++ [c]) hab (by simp)]
                  have hlen : l.length ≤ n := by
                    simp only [List.length_cons] at h
                    omega
                  rw [ih l [] hlen]
                · rw [splitlinesGo_cons_of_break acc a b (l ++ [c, '\n']) ha hab,
                    splitlinesGo_cons_of_break acc a b (l ++ [c]) ha hab]
                  have hlen : (b :: l).length ≤ n := by
                    simp only [List.length_cons] at h ⊢
                    omega
                  have := ih (b :: l) [] hlen
                  simp only [List.cons_append] at this
                  rw [this]
          · have ha2 : isLineBreak a = false := by
              cases hb : isLineBreak a with
              | false => rfl
              | true => exact absurd hb ha
            rw [splitlinesGo_cons_of_not_break acc a (l ++ [c, '\n']) ha2,
              splitlinesGo_cons_of_not_break acc a (l ++ [c]) ha2]
            have hlen : l.length ≤ n := by
              simp only [List.length_cons] at h
              omega
            exact ih l (a :: acc) hlen

/-- `splitlines` version: a terminating newline after a non-break final
character changes nothing about the line split. -/
theorem splitlines_append_newline (l : List Char) (c : Char)
    (hc : isLineBreak c = false) :
    splitlines (l ++ [c] ++ ['\n']) = splitlines (l ++ [c]) := by
  have h1 : l ++ [c] ++ ['\n'] ≠ [] := by simp
  have h2 : l ++ [c] ≠ [] := by simp
  rw [splitlines, splitlines, if_neg h1, if_neg h2]
  have := splitlinesGo_append_newline c hc l.length l [] (le_refl _)
  simpa using this

end CheckParens

namespace CheckParens

/-- Claim C1: for every successfully read input, the exit code is 0 if and
only if all three final counters are exactly 0; in every other case it is
exactly 2, and the balance check produces no other exit code. -/
theorem exit_code_correct (t : List Char) :
    (exitCode t = 0 ↔
      ((finalCounters t).paren = 0 ∧ (finalCounters t).brace = 0 ∧
        (finalCounters t).brack = 0)) ∧
    (exitCode t = 0 ∨ exitCode t = 2) := by
  constructor
  · unfold exitCode
    split_ifs with h
    · have h2 : ¬((finalCounters t).paren = 0 ∧ (finalCounters t).brace = 0 ∧
          (finalCounters t).brack = 0) := by tauto
      simp [h2]
    · push_neg at h
      simp [h.1, h.2.1, h.2.2]
  · unfold exitCode
    split_ifs <;> simp

/-- Claim C2: the counter values printed in the record for line index i
(0-based here, printed as line number i + 1) are the state after scanning
lines 0..i, and that state equals the net open-minus-close counts of each
bracket kind over all characters of those lines combined. -/
theorem balance_invariant (t : List Char) (i : Nat)
    (h : i < (splitlines t).length) :
    (outputRecords t).getD i [] =
      record (i + 1) (scanLines initC ((splitlines t).take (i + 1)))
        ((splitlines t).getD i []) ∧
    scanLines initC ((splitlines t).take (i + 1)) =
      ⟨netParen (((splitlines t).take (i + 1)).flatten),
        netBrace (((splitlines t).take (i + 1)).flatten),
        netBrack (((splitlines t).take (i + 1)).flatten)⟩ := by
  constructor
  · rw [outputRecords, recordsGo_getD (splitlines t) initC 1 i h,
      Nat.add_comm 1 i]
  · rw [scanLines_eq]
    simp [initC]

/-- Witness for C2 at the one-line input `"()"`. -/
theorem balance_invariant_witness :
    0 < (splitlines ("()").toList).length ∧
    ((outputRecords ("()").toList).getD 0 [] =
      record (0 + 1) (scanLines initC ((splitlines ("()").toList).take (0 + 1)))
        ((splitlines ("()").toList).getD 0 []) ∧
    scanLines initC ((splitlines ("()").toList).take (0 + 1)) =
      ⟨netParen (((splitlines ("()").toList).take (0 + 1)).flatten),
        netBrace (((splitlines ("()").toList).take (0 + 1)).flatten),
        netBrack (((splitlines ("()").toList).take (0 + 1)).flatten)⟩) :=
  ⟨by decide, balance_invariant (("()").toList) 0 (by decide)⟩

/-- Claim C3: the record for line index i consists of the 1-based line
number right-aligned in a width-4 field, `": "`, the label `paren=` with the
paren value right-aligned in a width-3 field, the labels `brace=` and
`brack=` likewise, the literal separator `" | "`, then the raw line text. -/
theorem per_line_format (t : List Char) (i : Nat)
    (h : i < (splitlines t).length) :
    (outputRecords t).getD i [] =
      padLeft 4 (renderNat (i + 1)) ++ (": ").toList ++
      ("paren=").toList ++
      padLeft 3 (renderInt (scanLines initC ((splitlines t).take (i + 1))).paren) ++
      (" ").toList ++ ("brace=").toList ++
      padLeft 3 (renderInt (scanLines initC ((splitlines t).take (i + 1))).brace) ++
      (" ").toList ++ ("brack=").toList ++
      padLeft 3 (renderInt (scanLines initC ((splitlines t).take (i + 1))).brack) ++
      (" | ").toList ++ (splitlines t).getD i [] := by
  rw [outputRecords, recordsGo_getD (splitlines t) initC 1 i h,
    Nat.add_comm 1 i, record]
  have e1 : (": paren=").toList = (": ").toList ++ ("paren=").toList := by decide
  have e2 : (" brace=").toList = (" ").toList ++ ("brace=").toList := by decide
  have e3 : (" brack=").toList = (" ").toList ++ ("brack=").toList := by decide
  rw [e1, e2, e3]
  simp [List.append_assoc]

/-- Witness for C3 at the one-line input `"()"`. -/
theorem per_line_format_witness :
    0 < (splitlines ("()").toList).length ∧
    (outputRecords ("()").toList).getD 0 [] =
      padLeft 4 (renderNat (0 + 1)) ++ (": ").toList ++
      ("paren=").toList ++
      padLeft 3 (renderInt (scanLines initC ((splitlines ("()").toList).take (0 + 1))).paren) ++
      (" ").toList ++ ("brace=").toList ++
      padLeft 3 (renderInt (scanLines initC ((splitlines ("()").toList).take (0 + 1))).brace) ++
      (" ").toList ++ ("brack=").toList ++
      padLeft 3 (renderInt (scanLines initC ((splitlines ("()").toList).take (0 + 1))).brack) ++
      (" | ").toList ++ (splitlines ("()").toList).getD 0 [] :=
  ⟨by decide, per_line_format (("()").toList) 0 (by decide)⟩

end CheckParens

namespace CheckParens

/-- Counterexample to claim C4: the final summary does not print the
counters in the per-line style `paren=0 brace=0 brack=0`; on an empty input
the summary is `"\nFINAL COUNTS: paren 0 brace 0 brack 0"`, with labels and
values separated by spaces, and the claimed string appears nowhere in it. -/
theorem summary_equals_style_refuted :
    summaryRecord ([] : List Char) =
      ("\nFINAL COUNTS: paren 0 brace 0 brack 0").toList ∧
    ¬ (("paren=0 brace=0 brack=0").toList <:+: summaryRecord ([] : List Char)) := by
  constructor
  · decide
  · decide

/-- Claim C4 as amended: after all per-line records exactly one summary
record is produced, consisting of the label "FINAL COUNTS:" followed by the
three final counter values in the order paren, brace, brack, each value
preceded by its space-separated label; for an empty input the counters are
printed as `paren 0 brace 0 brack 0`. -/
theorem final_summary_format (t : List Char) :
    fullOutput t = outputRecords t ++ [summaryRecord t] ∧
    summaryRecord t =
      ('\n' :: ("FINAL COUNTS:").toList) ++ (" paren ").toList ++
        renderInt (finalCounters t).paren ++
      (" brace ").toList ++ renderInt (finalCounters t).brace ++
      (" brack ").toList ++ renderInt (finalCounters t).brack ∧
    summaryRecord ([] : List Char) =
      ("\nFINAL COUNTS: paren 0 brace 0 brack 0").toList := by
  refine ⟨rfl, ?_, by decide⟩
  rw [summaryRecord]
  have e : ("FINAL COUNTS: paren ").toList =
      ("FINAL COUNTS:").toList ++ (" paren ").toList := by decide
  rw [e]
  simp [List.append_assoc]

/-- Claim C5: a failed file read propagates unchanged through the program:
no per-line record is produced, no exit code is chosen (so the exit-code-2
path is never reached), and nothing catches or retries the failure. -/
theorem read_failure_propagates (e : String) :
    runProgram (Except.error e) = Except.error e := rfl

/-- Counterexample to claim C6: inserting the non-bracket character `'\n'`
at position 0 of the input `"("` changes the printed counter values: the
modified run prints the triple (0, 0, 0) for line 1, which the original run
never prints. -/
theorem non_bracket_insertion_refuted :
    isBracketChar '\n' = false ∧
    printedTriples ('\n' :: ("(").toList) ≠ printedTriples (("(").toList) ∧
    (⟨0, 0, 0⟩ : Counters) ∈ printedTriples ('\n' :: ("(").toList) ∧
    (⟨0, 0, 0⟩ : Counters) ∉ printedTriples (("(").toList) := by
  refine ⟨by decide, by decide, by decide, by decide⟩

/-- Claim C6 as amended: inserting (equivalently, reading right to left,
removing) a non-bracket character at any position in the input never changes
the final counter values nor the exit code; per-line printed values may
shift when the character is a line separator or splits a CR-LF pair. -/
theorem non_bracket_transparency (u v : List Char) (c : Char)
    (h : isBracketChar c = false) :
    finalCounters (u ++ c :: v) = finalCounters (u ++ v) ∧
    exitCode (u ++ c :: v) = exitCode (u ++ v) := by
  simp only [isBracketChar, Bool.or_eq_false_iff, decide_eq_false_iff_not] at h
  obtain ⟨⟨⟨⟨⟨h1, h2⟩, h3⟩, h4⟩, h5⟩, h6⟩ := h
  have hf : finalCounters (u ++ c :: v) = finalCounters (u ++ v) := by
    rw [finalCounters_eq, finalCounters_eq, Counters.mk.injEq]
    refine ⟨?_, ?_, ?_⟩ <;>
      simp [netParen, netBrace, netBrack, List.count_append, List.count_cons,
        h1, h2, h3, h4, h5, h6]
  exact ⟨hf, by rw [exitCode, exitCode, hf]⟩

/-- Witness for the amended C6: inserting `'x'` between the characters of
`"()"`. -/
theorem non_bracket_transparency_witness :
    isBracketChar 'x' = false ∧
    (finalCounters (("(").toList ++ 'x' :: (")").toList) =
      finalCounters (("(").toList ++ (")").toList) ∧
    exitCode (("(").toList ++ 'x' :: (")").toList) =
      exitCode (("(").toList ++ (")").toList)) :=
  ⟨by decide, non_bracket_transparency (("(").toList) ((")").toList) 'x' (by decide)⟩

/-- Claim C7: the number of per-line records equals the number of lines the
split produces (zero for an empty file), and the split fabricates no empty
trailing entry for a terminating newline: appending a final newline to a
text ending in a non-break character leaves the records unchanged. -/
theorem line_count (t u : List Char) (c : Char)
    (hc : isLineBreak c = false) :
    (outputRecords t).length = (splitlines t).length ∧
    outputRecords ([] : List Char) = [] ∧
    outputRecords (u ++ [c] ++ ['\n']) = outputRecords (u ++ [c]) := by
  refine ⟨?_, rfl, ?_⟩
  · rw [outputRecords, recordsGo_length]
  · rw [outputRecords, outputRecords, splitlines_append_newline u c hc]

/-- Witness for C7 at `t = "("`, `u = ""`, `c = '('`. -/
theorem line_count_witness :
    isLineBreak '(' = false ∧
    ((outputRecords (("(").toList)).length = (splitlines (("(").toList)).length ∧
    outputRecords ([] : List Char) = [] ∧
    outputRecords ([] ++ ['('] ++ ['\n']) = outputRecords ([] ++ ['('])) :=
  ⟨by decide, line_count (("(").toList) [] '(' (by decide)⟩

/-- Claim C8: the scanner is deterministic: output and exit code are a pure
function of the file text, so two runs on the same unmodified input produce
identical output and identical exit code. -/
theorem deterministic (t1 t2 : List Char) (h : t1 = t2) :
    fullOutput t1 = fullOutput t2 ∧ exitCode t1 = exitCode t2 := by
  subst h
  exact ⟨rfl, rfl⟩

/-- Witness for C8 at the input `"()"`. -/
theorem deterministic_witness :
    ("()").toList = ("()").toList ∧
    (fullOutput (("()").toList) = fullOutput (("()").toList) ∧
      exitCode (("()").toList) = exitCode (("()").toList)) :=
  ⟨rfl, deterministic (("()").toList) (("()").toList) rfl⟩

/-- Claim C9: the final counters are independent of the division into lines:
the nested line-by-line scan equals the single flat scan over the
concatenation of the split lines, and also equals the flat scan over the
original text, line terminators included — terminator characters removed by
the split never affect any counter. -/
theorem line_split_refinement (t : List Char) :
    finalCounters t = scanLine initC ((splitlines t).flatten) ∧
    finalCounters t = scanLine initC t := by
  constructor
  · rw [finalCounters, scanLines_eq, scanLine_eq]
  · rw [finalCounters_eq, scanLine_eq]
    simp [initC]

/-- Claim C10: the width-4 and width-3 fields are minimum widths, never
truncating: the full rendering of the value is a suffix of the emitted
field, whose length is the maximum of the width and the rendering's length;
e.g. the counter value -123 and the line number 12345 print in full. -/
theorem field_width_no_truncation (i : Nat) (v : Int) :
    renderNat i <:+ padLeft 4 (renderNat i) ∧
    (padLeft 4 (renderNat i)).length = max 4 (renderNat i).length ∧
    renderInt v <:+ padLeft 3 (renderInt v) ∧
    (padLeft 3 (renderInt v)).length = max 3 (renderInt v).length ∧
    padLeft 3 (renderInt (-123)) = ("-123").toList ∧
    padLeft 4 (renderNat 12345) = ("12345").toList := by
  refine ⟨⟨List.replicate (4 - (renderNat i).length) ' ', rfl⟩, ?_,
    ⟨List.replicate (3 - (renderInt v).length) ' ', rfl⟩, ?_,
    by decide, by decide⟩
  · simp only [padLeft, List.length_append, List.length_replicate]
    omega
  · simp only [padLeft, List.length_append, List.length_replicate]
    omega

end CheckParens
